import Mathlib

/-!
Verification of the resilience-and-caching core of the summarization service.

Shallow embedding of the relevant Python modules:
- app/core/exceptions.py            (exception hierarchy)
- app/services/summary_service.py   (SummaryService, CircuitBreaker)
- app/api/middleware/rate_limit.py  (InMemoryRateLimiter, RateLimitMiddleware)
- app/services/cache/memory_cache.py (CacheEntry, MemoryCacheService)
- app/domain/entities/summary_request.py (SummaryRequest.get_cache_key)
- app/services/fallback/textrank_summarizer.py (TextRankSummarizer)

Wall-clock timestamps (Python time.time floats) are modeled as rationals;
Python int() truncation is modeled by pyInt below.
-/

namespace App

/-- Exception classes of app/core/exceptions.py that are relevant to the
claims, as a closed inductive. The Python class hierarchy is captured by
the isinstance predicates below. -/
inductive PyExc where
  | llmProviderError (msg : String)
  | llmProviderTimeoutError (msg : String)
  | llmProviderQuotaError (msg : String)
  | llmProviderUnavailableError (msg : String)
  | fallbackError (msg : String)
  | cacheError (msg : String)
  | textProcessingError (msg : String)
  | otherError (msg : String)
deriving DecidableEq

/-- str(exception) in Python returns the message passed to the constructor. -/

def PyExc.message : PyExc → String
  | .llmProviderError m => m
  | .llmProviderTimeoutError m => m
  | .llmProviderQuotaError m => m
  | .llmProviderUnavailableError m => m
  | .fallbackError m => m
  | .cacheError m => m
  | .textProcessingError m => m
  | .otherError m => m

/-- isinstance(e, LLMProviderError): LLMProviderTimeoutError,
LLMProviderQuotaError and LLMProviderUnavailableError are subclasses of
LLMProviderError in app/core/exceptions.py. -/

def isinstance_LLMProviderError : PyExc → Bool
  | .llmProviderError _ => true
  | .llmProviderTimeoutError _ => true
  | .llmProviderQuotaError _ => true
  | .llmProviderUnavailableError _ => true
  | _ => false

/-- isinstance(e, LLMProviderTimeoutError). -/

def isinstance_LLMProviderTimeoutError : PyExc → Bool
  | .llmProviderTimeoutError _ => true
  | _ => false

/-- isinstance(e, LLMProviderUnavailableError). -/

def isinstance_LLMProviderUnavailableError : PyExc → Bool
  | .llmProviderUnavailableError _ => true
  | _ => false

/-- isinstance(e, FallbackError). -/

def isinstance_FallbackError : PyExc → Bool
  | .fallbackError _ => true
  | _ => false

/-- Python int() applied to a rational: truncation toward zero. -/

def pyInt (q : ℚ) : ℤ := if q < 0 then q.ceil else q.floor

/-! ## CircuitBreaker (app/services/summary_service.py, class CircuitBreaker) -/

/-- State and configuration of the CircuitBreaker class. The
`expected_exception` constructor argument (an exception class) is modeled
as the corresponding isinstance test. -/

structure CircuitBreaker where
  failure_threshold : ℕ
  recovery_timeout : ℚ
  expected_exception : PyExc → Bool
  failure_count : ℕ
  last_failure_time : Option ℚ
  is_open : Bool

/-- CircuitBreaker.__init__ state fields (failure_count = 0,
last_failure_time = None, is_open = False). -/

def CircuitBreaker.init (threshold : ℕ) (timeout : ℚ) (expected : PyExc → Bool) :
    CircuitBreaker :=
  { failure_threshold := threshold
    recovery_timeout := timeout
    expected_exception := expected
    failure_count := 0
    last_failure_time := none
    is_open := false }

/-- CircuitBreaker._should_attempt_reset. -/

def CircuitBreaker.should_attempt_reset (cb : CircuitBreaker) (now : ℚ) : Bool :=
  match cb.last_failure_time with
  | none => true
  | some t => decide (cb.recovery_timeout ≤ now - t)

/-- CircuitBreaker.__aenter__: fail fast when open and not yet recovered,
otherwise (possibly after resetting an open breaker whose timeout elapsed)
admit the guarded call. -/

def CircuitBreaker.aenter (cb : CircuitBreaker) (now : ℚ) : Except PyExc CircuitBreaker :=
  if cb.is_open then
    if cb.should_attempt_reset now then
      .ok { cb with is_open := false, failure_count := 0 }
    else
      .error (.llmProviderUnavailableError "Circuit breaker is open")
  else
    .ok cb

/-- CircuitBreaker.__aexit__: on success reset failure_count; on a
qualifying (expected_exception) failure increment it, record the failure
time, and open the breaker once the threshold is reached. The exception is
never suppressed. -/

def CircuitBreaker.aexit (cb : CircuitBreaker) (now : ℚ) (exc : Option PyExc) :
    CircuitBreaker :=
  match exc with
  | none => { cb with failure_count := 0 }
  | some e =>
    if cb.expected_exception e then
      let fc := cb.failure_count + 1
      { cb with
        failure_count := fc
        last_failure_time := some now
        is_open := if cb.failure_threshold ≤ fc then true else cb.is_open }
    else
      cb

/-- Result of one breaker-guarded provider call: the new breaker state,
whether the guarded body actually ran, and the value or exception seen by
the caller. -/

structure GuardedCallResult (α : Type) where
  breaker : CircuitBreaker
  invoked : Bool
  result : Except PyExc α

/-- One `async with self.circuit_breaker: ...` block as executed by
SummaryService._try_llm_generation. `outcome` is what the guarded body
would produce if invoked (asyncio.TimeoutError is already converted to
LLMProviderTimeoutError inside the body). If __aenter__ raises, the body
and __aexit__ do not run and the breaker state is unchanged. -/

def guardedCall (cb : CircuitBreaker) (now : ℚ) (outcome : Except PyExc α) :
    GuardedCallResult α :=
  match cb.aenter now with
  | .error e => ⟨cb, false, .error e⟩
  | .ok cb1 =>
    match outcome with
    | .ok v => ⟨cb1.aexit now none, true, .ok v⟩
    | .error e => ⟨cb1.aexit now (some e), true, .error e⟩

/-- A sequence of guarded provider calls whose bodies all raise a
qualifying provider error, at the given times. -/

def runFailures (cb : CircuitBreaker) : List ℚ → CircuitBreaker
  | [] => cb
  | t :: ts =>
    runFailures (guardedCall (α := Unit) cb t
      (.error (.llmProviderError "provider failure"))).breaker ts

/-- The breaker constructed by SummaryService.__init__:
CircuitBreaker(failure_threshold=3, recovery_timeout=60,
expected_exception=LLMProviderError). -/

def serviceBreaker : CircuitBreaker :=
  CircuitBreaker.init 3 60 isinstance_LLMProviderError

structure RateLimitInfo where
  limit : ℕ
  remaining : ℤ
  reset : ℤ
  retry_after : ℤ
deriving DecidableEq

/-- InMemoryRateLimiter.is_allowed for one identifier. `history` is the
per-identifier deque of request timestamps (front = oldest); the method
prunes timestamps at or before now - window_seconds from the front,
admits iff the remaining count is below the limit (appending `now` on
admission), and returns the verdict, the info dict, and the updated
history. -/

def is_allowed (history : List ℚ) (limit : ℕ) (window_seconds : ℚ) (now : ℚ) :
    Bool × RateLimitInfo × List ℚ :=
  let cutoff_time := now - window_seconds
  let pruned := history.dropWhile (fun t => decide (t ≤ cutoff_time))
  let current_count := pruned.length
  let allowed := decide (current_count < limit)
  let hist2 := if allowed then pruned ++ [now] else pruned
  let reset_time := if hist2.isEmpty then pyInt now else pyInt (now + window_seconds)
  (allowed,
    { limit := limit
      remaining := max 0 ((limit : ℤ) - current_count - (if allowed then 1 else 0))
      reset := reset_time
      retry_after := max 1 (pyInt (window_seconds - (now - hist2.headD now))) },
    hist2)

/-- The timestamps admitted by a sequence of is_allowed calls at the given
request times, starting from the given history. -/

def admitted (limit : ℕ) (window : ℚ) (h : List ℚ) : List ℚ → List ℚ
  | [] => []
  | t :: ts =>
    match is_allowed h limit window t with
    | (true, _, h2) => t :: admitted limit window h2 ts
    | (false, _, h2) => admitted limit window h2 ts

/-- Number of timestamps in `l` strictly greater than `c`. -/

def countGt (l : List ℚ) (c : ℚ) : ℕ :=
  (l.filter (fun u => decide (c < u))).length

/-- Number of timestamps of `l` inside the sliding interval (s, s + W]. -/

def countIn (l : List ℚ) (s W : ℚ) : ℕ :=
  (l.filter (fun u => decide (s < u ∧ u ≤ s + W))).length

structure CheckResult where
  allowed : Bool
  limit : ℕ
  remaining : ℤ
  reset : ℤ
  retry_after : ℤ
  window : String
deriving DecidableEq

/-- RateLimitMiddleware._check_rate_limits: one is_allowed check per
window (identifier:minute with a 60s window, identifier:hour with a 3600s
window, each with its own history), overall admission as the conjunction,
and the surfaced metadata taken from the minute window when it denies,
else from the hour window when it denies, else from the minute window.
Returns the result dict together with the two updated histories. -/

def check_rate_limits (minuteHistory hourHistory : List ℚ)
    (requests_per_minute requests_per_hour : ℕ) (now : ℚ) :
    CheckResult × List ℚ × List ℚ :=
  let m := is_allowed minuteHistory requests_per_minute 60 now
  let h := is_allowed hourHistory requests_per_hour 3600 now
  let allowed := m.1 && h.1
  let infoWin : RateLimitInfo × String :=
    if m.1 = false then (m.2.1, "minute")
    else if h.1 = false then (h.2.1, "hour")
    else (m.2.1, "minute")
  (⟨allowed, infoWin.1.limit, infoWin.1.remaining, infoWin.1.reset,
    infoWin.1.retry_after, infoWin.2⟩, m.2.2, h.2.2)

/-- Claim C5: the dual-window check evaluates the same request against the
60s and 3600s windows, overall admission is the conjunction of the two
verdicts, and on denial the surfaced limit/remaining/reset/retry_after
metadata comes from a denying window (the minute window when it denies,
otherwise the hour window). -/

structure CacheEntry (α : Type) where
  value : α
  created_at : ℚ
  expires_at : ℚ
  access_count : ℕ
  last_accessed : ℚ
deriving DecidableEq

variable {α : Type}

/-- CacheEntry.__init__ at wall-clock time `now`. -/

def CacheEntry.init (value : α) (ttl_seconds : ℤ) (now : ℚ) : CacheEntry α :=
  { value := value
    created_at := now
    expires_at := now + ttl_seconds
    access_count := 0
    last_accessed := now }

/-- CacheEntry.is_expired. -/

def CacheEntry.is_expired (e : CacheEntry α) (now : ℚ) : Bool :=
  decide (e.expires_at < now)

/-- The OrderedDict self._cache, as an association list in insertion/LRU
order: front = least recently used, keys unique in every reachable state. -/

abbrev CacheDict (α : Type) := List (String × CacheEntry α)

/-- dict.get(key): the entry bound to the key, if any. -/

def lookup : CacheDict α → String → Option (CacheEntry α)
  | [], _ => none
  | p :: c, k => if p.1 = k then some p.2 else lookup c k

/-- `key in dict`. -/

def containsKey (c : CacheDict α) (k : String) : Bool :=
  (lookup c k).isSome

/-- `del dict[key]`. -/

def eraseKey : CacheDict α → String → CacheDict α
  | [], _ => []
  | p :: c, k => if p.1 = k then eraseKey c k else p :: eraseKey c k

/-- OrderedDict.move_to_end on an existing key (no-op when absent; the
service only calls it on present keys). -/

def move_to_end (c : CacheDict α) (k : String) : CacheDict α :=
  match lookup c k with
  | none => c
  | some e => eraseKey c k ++ [(k, e)]

/-- dict item assignment `d[k] = e`: replaces in place keeping the
position for an existing key, appends at the end for a new key. -/

def dictAssign (c : CacheDict α) (k : String) (e : CacheEntry α) : CacheDict α :=
  if containsKey c k then
    c.map (fun p => if p.1 = k then (k, e) else p)
  else
    c ++ [(k, e)]

/-- MemoryCacheService._evict_lru: if the dict is nonempty, delete the
first (least recently used) key. -/

def evict_lru (c : CacheDict α) : CacheDict α :=
  match c with
  | [] => c
  | p :: _ => eraseKey c p.1

/-- Configuration and state of a MemoryCacheService instance. -/

structure MemoryCacheService (α : Type) where
  max_size : ℕ
  default_ttl : ℤ
  cache : CacheDict α

/-- MemoryCacheService.get_summary at wall-clock time `now`: miss on an
absent key; an expired entry is deleted and reported absent; a live entry
is moved to the most-recently-used end, its access statistics updated, and
its value returned. -/

def MemoryCacheService.get_summary (m : MemoryCacheService α) (k : String) (now : ℚ) :
    Option α × MemoryCacheService α :=
  match lookup m.cache k with
  | none => (none, m)
  | some entry =>
    if entry.is_expired now then
      (none, { m with cache := eraseKey m.cache k })
    else
      (some entry.value,
        { m with cache := eraseKey m.cache k ++
            [(k, { entry with
                access_count := entry.access_count + 1
                last_accessed := now })] })

/-- MemoryCacheService.set_summary at wall-clock time `now`: build the
entry (TTL defaulting to default_ttl), evict the least recently used key
when inserting a new key at capacity, store, and mark most recently
used. -/

def MemoryCacheService.set_summary (m : MemoryCacheService α) (k : String) (v : α)
    (ttl : Option ℤ) (now : ℚ) : MemoryCacheService α :=
  let ttl_seconds := ttl.getD m.default_ttl
  let entry := CacheEntry.init v ttl_seconds now
  let c1 := if !containsKey m.cache k && decide (m.max_size ≤ m.cache.length) then
      evict_lru m.cache
    else
      m.cache
  let c2 := dictAssign c1 k entry
  let c3 := move_to_end c2 k
  { m with cache := c3 }

/-- One get_summary or set_summary call, for trace reasoning. -/

inductive CacheOp (α : Type) where
  | get (k : String) (now : ℚ)
  | set (k : String) (v : α) (ttl : Option ℤ) (now : ℚ)

/-- State reached after one cache operation. -/

def applyOp (m : MemoryCacheService α) : CacheOp α → MemoryCacheService α
  | .get k now => (m.get_summary k now).2
  | .set k v ttl now => m.set_summary k v ttl now

/-- State reached after a sequence of cache operations. -/

def runOps (m : MemoryCacheService α) (ops : List (CacheOp α)) : MemoryCacheService α :=
  ops.foldl applyOp m

/-- Key uniqueness, an invariant of every reachable dict state. -/

def KeysNodup (c : CacheDict α) : Prop :=
  (c.map Prod.fst).Nodup

inductive LanguageCode where
  | auto | es | en | fr | de | it | pt | ru | zh | ja | ko
deriving DecidableEq

/-- The string value of a LanguageCode member (str enum). -/

def LanguageCode.value : LanguageCode → String
  | .auto => "auto"
  | .es => "es"
  | .en => "en"
  | .fr => "fr"
  | .de => "de"
  | .it => "it"
  | .pt => "pt"
  | .ru => "ru"
  | .zh => "zh"
  | .ja => "ja"
  | .ko => "ko"

/-- ToneType enum (app/core/config.py). -/

inductive ToneType where
  | neutral | concise | bullet
deriving DecidableEq

/-- The string value of a ToneType member (str enum). -/

def ToneType.value : ToneType → String
  | .neutral => "neutral"
  | .concise => "concise"
  | .bullet => "bullet"

/-- SummaryRequest fields (pydantic model with use_enum_values; metadata
modeled as string pairs, its JSON values never reach the cache key). -/

structure SummaryRequest where
  text : String
  lang : LanguageCode
  max_tokens : ℕ
  tone : ToneType
  user_id : Option String
  request_id : Option String
  metadata : List (String × String)

/-- A hex digit as json.dumps writes it. -/

def hexDigit (n : ℕ) : Char :=
  if n < 10 then Char.ofNat (48 + n) else Char.ofNat (87 + n)

/-- Four hex digits of a \uXXXX escape. -/

def hex4 (n : ℕ) : String :=
  String.mk [hexDigit (n / 4096 % 16), hexDigit (n / 256 % 16),
    hexDigit (n / 16 % 16), hexDigit (n % 16)]

/-- One character as json.dumps (default ensure_ascii=True) renders it
inside a JSON string. -/

def pyJsonEscapeChar (c : Char) : String :=
  if c = '"' then "\\\""
  else if c = '\\' then "\\\\"
  else if c = '\n' then "\\n"
  else if c = '\t' then "\\t"
  else if c = '\r' then "\\r"
  else if c.toNat = 8 then "\\b"
  else if c.toNat = 12 then "\\f"
  else if c.toNat < 32 ∨ 126 < c.toNat then
    if c.toNat < 65536 then "\\u" ++ hex4 c.toNat
    else
      "\\u" ++ hex4 (55296 + (c.toNat - 65536) / 1024) ++
        "\\u" ++ hex4 (56320 + (c.toNat - 65536) % 1024)
  else String.mk [c]

/-- A JSON string literal as json.dumps renders it. -/

def pyJsonStr (s : String) : String :=
  "\"" ++ String.join (s.toList.map pyJsonEscapeChar) ++ "\""

/-- The json.dumps(content, sort_keys=True) string for the content dict of
get_cache_key: keys in sorted order lang, max_tokens, text, tone with the
default ", " and ": " separators. -/

def content_str (r : SummaryRequest) : String :=
  "\x7b\"lang\": " ++ pyJsonStr r.lang.value ++
  ", \"max_tokens\": " ++ toString r.max_tokens ++
  ", \"text\": " ++ pyJsonStr r.text ++
  ", \"tone\": " ++ pyJsonStr r.tone.value ++ "\x7d"

/-- SummaryRequest.get_cache_key. The sha256 hexdigest is kept abstract as
the `hexdigest` parameter (the claims about the key only concern which
request fields feed it); the code takes the first 16 hex characters and
prefixes "summary:". -/

def get_cache_key (hexdigest : String → String) (r : SummaryRequest) : String :=
  "summary:" ++ (hexdigest (content_str r)).take 16

/-- Claim C8: the cache key depends only on text, lang, max_tokens and
tone: two requests agreeing on those four fields get identical keys for
every hash function, whatever their user_id, request_id and metadata. -/

def calculate_num_sentences (max_tokens total_sentences : ℕ) : ℕ :=
  let avg_tokens_per_sentence := 20
  let max_sentences := max 1 (max_tokens / avg_tokens_per_sentence)
  let suggested_sentences := max 1 (min max_sentences (total_sentences / 3))
  min suggested_sentences 10

/-- The sentence budget formula as the spec states it:
clamp(total_sentences / 3, 1, 10) further bounded by max_tokens / 20. -/

def spec_sentence_budget (max_tokens total_sentences : ℕ) : ℕ :=
  min 10 (max 1 (min (max_tokens / 20) (total_sentences / 3)))

/-- The (score, index) lexicographic order under which np.argsort ranks
the sentence indices ascending (scores read with getD; indices produced by
range are always in bounds). -/

def argKeyLe (scores : List ℚ) (i j : ℕ) : Prop :=
  scores.getD i 0 < scores.getD j 0 ∨ (scores.getD i 0 = scores.getD j 0 ∧ i ≤ j)

instance (scores : List ℚ) : DecidableRel (argKeyLe scores) := fun i j => by
  unfold argKeyLe
  infer_instance

instance (scores : List ℚ) : IsTotal ℕ (argKeyLe scores) := ⟨by
  intro i j
  rcases lt_trichotomy (scores.getD i 0) (scores.getD j 0) with h | h | h
  · exact .inl (.inl h)
  · rcases le_total i j with hij | hij
    · exact .inl (.inr ⟨h, hij⟩)
    · exact .inr (.inr ⟨h.symm, hij⟩)
  · exact .inr (.inl h)⟩

instance (scores : List ℚ) : IsTrans ℕ (argKeyLe scores) := ⟨by
  intro a b c hab hbc
  rcases hab with hab | ⟨hab, hab2⟩
  · rcases hbc with hbc | ⟨hbc, _⟩
    · exact .inl (hab.trans hbc)
    · exact .inl (hbc ▸ hab)
  · rcases hbc with hbc | ⟨hbc, hbc2⟩
    · exact .inl (hab ▸ hbc)
    · exact .inr ⟨hab.trans hbc, hab2.trans hbc2⟩⟩

/-- np.argsort(scores)[::-1]: the indices 0..n-1 ranked by descending
score. np.argsort is modeled as sorting by the (score, index) key; the
properties proved below hold for any deterministic tie order. -/

def argsortDesc (scores : List ℚ) : List ℕ :=
  (List.insertionSort (argKeyLe scores) (List.range scores.length)).reverse

/-- sorted(np.argsort(scores)[::-1][:num_sentences]): the selected top
indices re-sorted into ascending (original text) order. -/

def selected_indices (scores : List ℚ) (num_sentences : ℕ) : List ℕ :=
  List.insertionSort (· ≤ ·) ((argsortDesc scores).take num_sentences)

/-- TextRankSummarizer.extract_sentences, given the sent_tokenize result
and the TextRank scores of the sentences (the numeric pipeline producing
the scores is abstracted as the `scores` argument): all sentences when
there are no more than num_sentences of them, otherwise the top-scoring
num_sentences re-sorted into original order. -/

def extract_sentences (sentences : List String) (scores : List ℚ)
    (num_sentences : ℕ) : List String :=
  if sentences.length ≤ num_sentences then sentences
  else (selected_indices scores num_sentences).map (fun i => sentences.getD i "")

inductive SummarySource where
  | llm | fallback_textrank | fallback_tfidf | cache
deriving DecidableEq

/-- TokenUsage (total_tokens is always their sum and is omitted). -/

structure TokenUsage where
  prompt_tokens : ℕ
  completion_tokens : ℕ
deriving DecidableEq

/-- SummaryResponse fields relevant to the claims (latency_ms, a wall
clock measurement, and the optional quality block are omitted). -/

structure SummaryResponse where
  summary : String
  usage : TokenUsage
  model : String
  source : SummarySource
  request_id : Option String
  cache_hit : Bool
deriving DecidableEq

/-- The two concrete fallback services wired by SummaryService.__init__
(TextRankSummarizer, TFIDFSummarizer). The NLP pipeline inside each
generate_summary try-block (sentence extraction and joining) is abstracted
as `run`, returning the joined summary text or the message of the internal
exception that the except-clause wraps into a FallbackError; language
support, source tagging, token usage estimation and error wrapping follow
the source of each class. -/

inductive FallbackSvc where
  | textrank (run : SummaryRequest → Except String String)
  | tfidf (run : SummaryRequest → Except String String)

/-- The inner pipeline of a service. -/

def FallbackSvc.run_of : FallbackSvc → (SummaryRequest → Except String String)
  | .textrank run => run
  | .tfidf run => run

/-- supports_language of each class (the request carries a LanguageCode
member, so the LanguageCode(code) conversion always succeeds). -/

def FallbackSvc.supports_language : FallbackSvc → LanguageCode → Bool
  | .textrank _, l =>
    decide (l ∈ [LanguageCode.auto, .en, .es, .fr, .de, .it, .pt])
  | .tfidf _, l =>
    decide (l ∈ [LanguageCode.auto, .en, .es, .fr, .de, .it, .pt, .ru])

/-- The model field each class writes into its responses. -/

def FallbackSvc.model_name : FallbackSvc → String
  | .textrank _ => "textrank"
  | .tfidf _ => "tfidf"

/-- The source tag each class writes into its responses. -/

def FallbackSvc.fallback_source : FallbackSvc → SummarySource
  | .textrank _ => .fallback_textrank
  | .tfidf _ => .fallback_tfidf

/-- The message head of the FallbackError each class raises. -/

def FallbackSvc.error_label : FallbackSvc → String
  | .textrank _ => "TextRank summarization failed: "
  | .tfidf _ => "TF-IDF summarization failed: "

/-- generate_summary of a fallback service: on success, a response tagged
with the fallback source of the algorithm and the usual token estimates;
any internal failure is wrapped into a FallbackError. -/

def FallbackSvc.generate_summary (s : FallbackSvc) (req : SummaryRequest) :
    Except PyExc SummaryResponse :=
  match s.run_of req with
  | .ok summary_text =>
    .ok { summary := summary_text
          usage := { prompt_tokens := req.text.length / 4
                     completion_tokens := summary_text.length / 4 }
          model := s.model_name
          source := s.fallback_source
          request_id := req.request_id
          cache_hit := false }
  | .error msg => .error (.fallbackError (s.error_label ++ msg))

/-- Python str() of the last_error local: str(None) is "None", str of an
exception is its message. -/

def strOfLastError : Option PyExc → String
  | none => "None"
  | some e => e.message

/-- The loop of SummaryService._try_fallback_generation: iterate the
services in order, skip those whose supports_language rejects the request
language, return the first successful response; a FallbackError is
recorded as last_error and iteration continues (any other exception would
propagate); when the loop ends, raise the aggregate FallbackError
referencing the last error. -/

def try_fallback_generation_loop (req : SummaryRequest) :
    List FallbackSvc → Option PyExc → Except PyExc SummaryResponse
  | [], last_error =>
    .error (.fallbackError
      ("All fallback services failed. Last error: " ++ strOfLastError last_error))
  | s :: rest, last_error =>
    if s.supports_language req.lang = false then
      try_fallback_generation_loop req rest last_error
    else
      match s.generate_summary req with
      | .ok response => .ok response
      | .error e =>
        if isinstance_FallbackError e then
          try_fallback_generation_loop req rest (some e)
        else
          .error e

/-- SummaryService._try_fallback_generation (last_error starts as None). -/

def try_fallback_generation (services : List FallbackSvc) (req : SummaryRequest) :
    Except PyExc SummaryResponse :=
  try_fallback_generation_loop req services none

/-- Whether a service would be invoked and succeed for this request: it
supports the language and its generate_summary returns a response. -/

def fallback_succeeds (req : SummaryRequest) (s : FallbackSvc) : Bool :=
  s.supports_language req.lang &&
    (match s.generate_summary req with
     | .ok _ => true
     | .error _ => false)

/-- The last_error value reached by the loop when no service succeeds:
the error of the last service that supports the language and fails. -/

def last_eligible_error (req : SummaryRequest) :
    List FallbackSvc → Option PyExc → Option PyExc
  | [], acc => acc
  | s :: rest, acc =>
    if s.supports_language req.lang = false then
      last_eligible_error req rest acc
    else
      match s.generate_summary req with
      | .ok _ => last_eligible_error req rest acc
      | .error e => last_eligible_error req rest (some e)

/-- SummaryService.generate_summary, for a service with the given fallback
list and breaker state. `cached` is the outcome of the cache lookup step
(none when the cache misses or no cache service is configured); `outcome`
is what the provider body would produce if invoked. Cache writes never
change the returned value (CacheError is absorbed) and are not modeled.
Returns the caller-visible outcome and the breaker state after the call. -/

def generate_summary (services : List FallbackSvc) (cb : CircuitBreaker) (now : ℚ)
    (cached : Option SummaryResponse) (outcome : Except PyExc SummaryResponse)
    (req : SummaryRequest) : Except PyExc SummaryResponse × CircuitBreaker :=
  match cached with
  | some cached_response =>
    (.ok { cached_response with cache_hit := true, source := .cache }, cb)
  | none =>
    let g := guardedCall cb now outcome
    match g.result with
    | .ok response => (.ok response, g.breaker)
    | .error e =>
      if isinstance_LLMProviderError e || isinstance_LLMProviderTimeoutError e
          || isinstance_LLMProviderUnavailableError e then
        (try_fallback_generation services req, g.breaker)
      else
        (.error e, g.breaker)

/-! ## Theorems -/

lemma runFailures_opens : ∀ (ts : List ℚ) (cb : CircuitBreaker),
    cb.expected_exception = isinstance_LLMProviderError →
    cb.is_open = false →
    cb.failure_count + ts.length = cb.failure_threshold →
    ts ≠ [] →
    (runFailures cb ts).is_open = true := by
  intro ts
  induction ts with
  | nil => intro cb _ _ _ hne; exact absurd rfl hne
  | cons t ts ih =>
    intro cb hexp hopen hcount _
    have hstep : runFailures cb (t :: ts) =
        runFailures ({ cb with
          failure_count := cb.failure_count + 1
          last_failure_time := some t
          is_open := if cb.failure_threshold ≤ cb.failure_count + 1 then true
                     else cb.is_open }) ts := by
      simp [runFailures, guardedCall, CircuitBreaker.aenter, hopen,
        CircuitBreaker.aexit, hexp, isinstance_LLMProviderError]
    rw [hstep]
    cases ts with
    | nil =>
      have hth : cb.failure_threshold ≤ cb.failure_count + 1 := by
        simp at hcount; omega
      simp [runFailures, hth]
    | cons t' ts' =>
      have hlt : ¬ cb.failure_threshold ≤ cb.failure_count + 1 := by
        simp at hcount; omega
      refine ih _ hexp ?_ ?_ (by simp)
      · simp [hlt, hopen]
      · simp at hcount ⊢; omega

/-- Claim C2: after failure_threshold consecutive qualifying failures the
breaker is open; while open and now - last_failure_time < recovery_timeout
every guarded call fails fast with a provider-unavailable error, without
invoking the body and without changing breaker state; once the timeout has
elapsed the next guarded call is permitted, and a success resets
failure_count to 0 and leaves the breaker closed. -/

theorem C2_circuit_breaker :
    (∀ (cb : CircuitBreaker) (ts : List ℚ),
      cb.expected_exception = isinstance_LLMProviderError →
      cb.is_open = false → cb.failure_count = 0 →
      ts.length = cb.failure_threshold → 1 ≤ cb.failure_threshold →
      (runFailures cb ts).is_open = true)
    ∧
    (∀ {α : Type} (cb : CircuitBreaker) (now t : ℚ) (outcome : Except PyExc α),
      cb.is_open = true → cb.last_failure_time = some t →
      now - t < cb.recovery_timeout →
      guardedCall cb now outcome =
        ⟨cb, false, .error (.llmProviderUnavailableError "Circuit breaker is open")⟩)
    ∧
    (∀ {α : Type} (cb : CircuitBreaker) (now t : ℚ) (r : α),
      cb.is_open = true → cb.last_failure_time = some t →
      cb.recovery_timeout ≤ now - t →
      (guardedCall cb now (.ok r)).invoked = true ∧
      (guardedCall cb now (.ok r)).breaker.failure_count = 0 ∧
      (guardedCall cb now (.ok r)).breaker.is_open = false ∧
      (guardedCall cb now (.ok r)).result = .ok r) := by
  refine ⟨?_, ?_, ?_⟩
  · intro cb ts hexp hopen hcount hlen hth
    refine runFailures_opens ts cb hexp hopen (by omega) ?_
    intro h
    rw [h] at hlen
    simp at hlen
    omega
  · intro α cb now t outcome hopen hlast hlt
    have hreset : cb.should_attempt_reset now = false := by
      simp [CircuitBreaker.should_attempt_reset, hlast]
      linarith
    simp [guardedCall, CircuitBreaker.aenter, hopen, hreset]
  · intro α cb now t r hopen hlast hle
    have hreset : cb.should_attempt_reset now = true := by
      simp [CircuitBreaker.should_attempt_reset, hlast]
      linarith
    simp [guardedCall, CircuitBreaker.aenter, hopen, hreset, CircuitBreaker.aexit]

/-- Witness for C2 at concrete inputs: threshold 3 breaker opened by three
failures at times 0, 1, 2; fail-fast at time 10; recovery and successful
trial at time 62. -/

theorem C2_circuit_breaker_witness :
    (runFailures serviceBreaker [0, 1, 2]).is_open = true ∧
    guardedCall (α := Unit) ⟨3, 60, isinstance_LLMProviderError, 3, some 2, true⟩ 10
        (.ok ()) =
      ⟨⟨3, 60, isinstance_LLMProviderError, 3, some 2, true⟩, false,
        .error (.llmProviderUnavailableError "Circuit breaker is open")⟩ ∧
    (guardedCall (α := Unit) ⟨3, 60, isinstance_LLMProviderError, 3, some 2, true⟩ 62
        (.ok ())).breaker.is_open = false := by
  refine ⟨?_, ?_, ?_⟩
  · exact C2_circuit_breaker.1 serviceBreaker [0, 1, 2] rfl rfl rfl rfl
      (by norm_num [serviceBreaker, CircuitBreaker.init])
  · exact C2_circuit_breaker.2.1 _ 10 2 _ rfl rfl (by norm_num)
  · exact (C2_circuit_breaker.2.2 _ 62 2 () rfl rfl (by norm_num)).2.2.1

/-- Counterexample to claim C3: the code has no HALF_OPEN state. After the
breaker opened (three failures at times 0, 1, 2) and the recovery timeout
elapsed, the trial call at time 62 is permitted, but a qualifying failure
during it does NOT reopen the breaker (failure_count was reset to 0 on
entry, so it becomes 1 < 3 and is_open stays false), and a further call at
time 63 is also permitted, so more than one trial call is allowed. -/

theorem C3_counterexample :
    (guardedCall (α := Unit) (runFailures serviceBreaker [0, 1, 2]) 62
        (.error (.llmProviderError "boom"))).invoked = true ∧
    (guardedCall (α := Unit) (runFailures serviceBreaker [0, 1, 2]) 62
        (.error (.llmProviderError "boom"))).breaker.is_open = false ∧
    (guardedCall (α := Unit) (runFailures serviceBreaker [0, 1, 2]) 62
        (.error (.llmProviderError "boom"))).breaker.failure_count = 1 ∧
    (guardedCall (α := Unit)
        (guardedCall (α := Unit) (runFailures serviceBreaker [0, 1, 2]) 62
          (.error (.llmProviderError "boom"))).breaker 63
        (.error (.llmProviderError "boom"))).invoked = true := by
  norm_num [serviceBreaker, CircuitBreaker.init, runFailures, guardedCall,
    CircuitBreaker.aenter, CircuitBreaker.aexit, CircuitBreaker.should_attempt_reset,
    isinstance_LLMProviderError]

/-- Claim C3 as amended: once the breaker is open and recovery_timeout has
elapsed, the next guarded call fully closes the breaker (resetting
failure_count to 0) instead of entering a one-trial HALF_OPEN state; a
single qualifying failure during that call leaves the breaker closed with
failure_count = 1 (it does not immediately reopen, given
failure_threshold at least 2), and every subsequent call is again
permitted, not just one trial. -/

theorem C3_amended (cb : CircuitBreaker) (t now : ℚ) (e : PyExc)
    (hopen : cb.is_open = true) (hlast : cb.last_failure_time = some t)
    (helapsed : cb.recovery_timeout ≤ now - t)
    (hq : cb.expected_exception e = true)
    (hth : 2 ≤ cb.failure_threshold) :
    (guardedCall (α := Unit) cb now (.error e)).invoked = true ∧
    (guardedCall (α := Unit) cb now (.error e)).breaker.is_open = false ∧
    (guardedCall (α := Unit) cb now (.error e)).breaker.failure_count = 1 ∧
    ∀ (now' : ℚ) (outcome : Except PyExc Unit),
      (guardedCall (guardedCall (α := Unit) cb now (.error e)).breaker
        now' outcome).invoked = true := by
  have hreset : cb.should_attempt_reset now = true := by
    simp [CircuitBreaker.should_attempt_reset, hlast]
    linarith
  have hnth : ¬ cb.failure_threshold ≤ 0 + 1 := by omega
  refine ⟨?_, ?_, ?_, ?_⟩ <;>
    simp [guardedCall, CircuitBreaker.aenter, hopen, hreset,
      CircuitBreaker.aexit, hq, hnth]
  intro now' outcome
  cases outcome <;>
    simp [guardedCall, CircuitBreaker.aenter, CircuitBreaker.aexit]

/-- Witness for the amended C3 at a concrete breaker state. -/

theorem C3_amended_witness :
    (guardedCall (α := Unit) ⟨3, 60, isinstance_LLMProviderError, 3, some 2, true⟩ 62
        (.error (.llmProviderError "boom"))).breaker.is_open = false := by
  exact (C3_amended ⟨3, 60, isinstance_LLMProviderError, 3, some 2, true⟩ 2 62
    (.llmProviderError "boom") rfl rfl (by norm_num) rfl (by norm_num)).2.1

/-! ## InMemoryRateLimiter (app/api/middleware/rate_limit.py) -/

/-- The rate_limit_info dict returned by InMemoryRateLimiter.is_allowed. -/

lemma filter_length_mono {α : Type} (l : List α) (p q : α → Bool)
    (h : ∀ a, p a = true → q a = true) :
    (l.filter p).length ≤ (l.filter q).length := by
  induction l with
  | nil => simp
  | cons a l ih =>
    by_cases hp : p a = true
    · have hq := h a hp
      simp [List.filter_cons, hp, hq]
      omega
    · rw [List.filter_cons, if_neg (by simpa using hp)]
      cases hq : q a
      · rw [List.filter_cons, if_neg (by simp [hq])]
        exact ih
      · rw [List.filter_cons, if_pos (by simp [hq])]
        simp only [List.length_cons]
        omega

lemma dropWhile_eq_filter_of_sorted (c : ℚ) :
    ∀ (l : List ℚ), l.Pairwise (· ≤ ·) →
    l.dropWhile (fun t => decide (t ≤ c)) = l.filter (fun t => decide (c < t)) := by
  intro l
  induction l with
  | nil => simp
  | cons a l ih =>
    intro hp
    rw [List.pairwise_cons] at hp
    by_cases ha : a ≤ c
    · rw [List.dropWhile_cons_of_pos (by simpa using ha),
        List.filter_cons_of_neg (by simp; linarith)]
      exact ih hp.2
    · have hca : c < a := lt_of_not_le ha
      rw [List.dropWhile_cons_of_neg (by simpa using ha),
        List.filter_cons_of_pos (by simpa using hca)]
      rw [List.filter_eq_self.mpr]
      intro x hx
      have := hp.1 x hx
      simp
      linarith

lemma countGt_append (X Y : List ℚ) (c : ℚ) :
    countGt (X ++ Y) c = countGt X c + countGt Y c := by
  unfold countGt
  rw [List.filter_append, List.length_append]

lemma countIn_append (X Y : List ℚ) (s W : ℚ) :
    countIn (X ++ Y) s W = countIn X s W + countIn Y s W := by
  unfold countIn
  rw [List.filter_append, List.length_append]

lemma admitted_cons_true {h : List ℚ} {L : ℕ} {W t : ℚ}
    (hall : (h.dropWhile (fun u => decide (u ≤ t - W))).length < L) (ts : List ℚ) :
    admitted L W h (t :: ts) =
      t :: admitted L W (h.dropWhile (fun u => decide (u ≤ t - W)) ++ [t]) ts := by
  simp [admitted, is_allowed, hall]

lemma admitted_cons_false {h : List ℚ} {L : ℕ} {W t : ℚ}
    (hall : ¬ (h.dropWhile (fun u => decide (u ≤ t - W))).length < L) (ts : List ℚ) :
    admitted L W h (t :: ts) =
      admitted L W (h.dropWhile (fun u => decide (u ≤ t - W))) ts := by
  simp [admitted, is_allowed, hall]

lemma admitted_sliding_aux (L : ℕ) (W : ℚ) :
    ∀ (ts : List ℚ) (h A : List ℚ) (tprev : ℚ),
    ts.Pairwise (· ≤ ·) → (∀ t ∈ ts, tprev ≤ t) →
    h.Pairwise (· ≤ ·) → (∀ u ∈ h, u ≤ tprev) →
    (∀ c : ℚ, tprev - W ≤ c → countGt A c ≤ countGt h c) →
    (∀ s : ℚ, countIn A s W ≤ L) →
    ∀ s : ℚ, countIn (A ++ admitted L W h ts) s W ≤ L := by
  intro ts
  induction ts with
  | nil =>
    intro h A tprev _ _ _ _ _ hIn s
    simpa [admitted] using hIn s
  | cons t ts ih =>
    intro h A tprev hts htp hsh huh hGt hIn s
    rw [List.pairwise_cons] at hts
    have htprev_t : tprev ≤ t := htp t (by simp)
    have hpr : h.dropWhile (fun u => decide (u ≤ t - W)) =
        h.filter (fun u => decide (t - W < u)) :=
      dropWhile_eq_filter_of_sorted (t - W) h hsh
    set pruned := h.dropWhile (fun u => decide (u ≤ t - W)) with hpruneddef
    have hprsorted : pruned.Pairwise (· ≤ ·) := by
      rw [hpr]; exact hsh.filter _
    have hprmem : ∀ u ∈ pruned, u ∈ h := by
      intro u hu; rw [hpr] at hu; exact (List.mem_filter.mp hu).1
    have hprle : ∀ u ∈ pruned, u ≤ t :=
      fun u hu => le_trans (huh u (hprmem u hu)) htprev_t
    have hGtpruned : ∀ c : ℚ, t - W ≤ c → countGt pruned c = countGt h c := by
      intro c hc
      rw [hpr]
      unfold countGt
      apply congrArg List.length
      rw [List.filter_filter]
      apply List.filter_congr
      intro u _
      by_cases hcu : c < u
      · have : t - W < u := by linarith
        simp [hcu, this]
      · simp [hcu]
    by_cases hall : pruned.length < L
    · rw [admitted_cons_true hall,
        show A ++ t :: admitted L W (pruned ++ [t]) ts =
          (A ++ [t]) ++ admitted L W (pruned ++ [t]) ts by simp]
      apply ih (pruned ++ [t]) (A ++ [t]) t hts.2 hts.1
      · rw [List.pairwise_append]
        exact ⟨hprsorted, by simp, fun a ha b hb => by
          rw [List.mem_singleton] at hb; rw [hb]; exact hprle a ha⟩
      · intro u hu
        rcases List.mem_append.mp hu with hu | hu
        · exact hprle u hu
        · rw [List.mem_singleton] at hu; rw [hu]
      · intro c hc
        rw [countGt_append, countGt_append]
        have h1 : countGt A c ≤ countGt h c := hGt c (by linarith)
        have h2 : countGt pruned c = countGt h c := hGtpruned c hc
        omega
      · intro s'
        rw [countIn_append]
        by_cases hmem : s' < t ∧ t ≤ s' + W
        · have h1 : countIn [t] s' W = 1 := by simp [countIn, hmem]
          have h2 : countIn A s' W ≤ countGt A s' := by
            apply filter_length_mono
            intro u hu
            simp at hu ⊢
            exact hu.1
          have h3 : countGt A s' ≤ countGt h s' := hGt s' (by linarith [hmem.2])
          have h4 : countGt h s' = countGt pruned s' :=
            (hGtpruned s' (by linarith [hmem.2])).symm
          have h5 : countGt pruned s' ≤ pruned.length := List.length_filter_le _ _
          omega
        · have h1 : countIn [t] s' W = 0 := by
            simp [countIn, List.filter, hmem]
          have := hIn s'
          omega
    · rw [admitted_cons_false hall]
      apply ih pruned A t hts.2 hts.1 hprsorted hprle
      · intro c hc
        rw [hGtpruned c hc]
        exact hGt c (by linarith)
      · exact hIn

/-- Claim C4: on each is_allowed call with a time-ordered history, after
pruning the timestamps outside the trailing window the request is allowed
iff the retained count is strictly below the limit, in which case `now` is
appended and remaining = limit - count - 1; otherwise it is denied, the
retained history has an oldest element (for limit at least 1) and
retry_after = window - (now - oldest) truncated to int and clamped to at
least 1, hence always positive. Consequently, starting from an empty
history, any sliding interval (s, s + window] admits at most `limit`
requests. -/

theorem C4_rate_limiter :
    (∀ (history : List ℚ) (limit : ℕ) (window now : ℚ),
      history.Pairwise (· ≤ ·) →
      (((is_allowed history limit window now).1 = true ↔
          (history.filter (fun t => decide (now - window < t))).length < limit)
      ∧ ((is_allowed history limit window now).1 = true →
          (is_allowed history limit window now).2.2 =
              history.filter (fun t => decide (now - window < t)) ++ [now]
          ∧ (is_allowed history limit window now).2.1.remaining =
              (limit : ℤ) -
                (history.filter (fun t => decide (now - window < t))).length - 1)
      ∧ ((is_allowed history limit window now).1 = false →
          (is_allowed history limit window now).2.2 =
              history.filter (fun t => decide (now - window < t))
          ∧ (1 ≤ limit →
              history.filter (fun t => decide (now - window < t)) ≠ [])
          ∧ (is_allowed history limit window now).2.1.retry_after =
              max 1 (pyInt (window - (now -
                (history.filter (fun t =>
                  decide (now - window < t))).headD now))))
      ∧ 0 < (is_allowed history limit window now).2.1.retry_after))
    ∧
    (∀ (limit : ℕ) (window : ℚ) (ts : List ℚ), ts.Pairwise (· ≤ ·) →
      ∀ s : ℚ, countIn (admitted limit window [] ts) s window ≤ limit) := by
  constructor
  · intro history limit window now hsorted
    have hpr : history.dropWhile (fun t => decide (t ≤ now - window)) =
        history.filter (fun t => decide (now - window < t)) :=
      dropWhile_eq_filter_of_sorted (now - window) history hsorted
    set retained := history.filter (fun t => decide (now - window < t)) with hret
    refine ⟨?_, ?_, ?_, ?_⟩
    · simp [is_allowed, hpr]
    · intro h1
      have hall : retained.length < limit := by
        simpa [is_allowed, hpr] using h1
      constructor
      · simp [is_allowed, hpr, hall]
      · simp [is_allowed, hpr, hall]
        omega
    · intro h1
      have hall : ¬ retained.length < limit := by
        simpa [is_allowed, hpr] using h1
      refine ⟨by simp [is_allowed, hpr, hall], ?_, by simp [is_allowed, hpr, hall]⟩
      intro hlim
      have : 0 < retained.length := by omega
      exact List.ne_nil_of_length_pos this
    · have : (1 : ℤ) ≤ (is_allowed history limit window now).2.1.retry_after := by
        simp [is_allowed]
      omega
  · intro limit window ts hts s
    cases ts with
    | nil => simp [admitted, countIn]
    | cons t0 ts' =>
      have htp : ∀ t ∈ t0 :: ts', t0 ≤ t := by
        intro t ht
        rcases List.mem_cons.mp ht with h | h
        · rw [h]
        · exact (List.pairwise_cons.mp hts).1 t h
      have := admitted_sliding_aux limit window (t0 :: ts') [] [] t0 hts htp
        (by simp) (by simp) (by intro c _; simp [countGt])
        (by intro s'; simp [countIn]) s
      simpa using this

/-- Witness for C4 at concrete inputs: history [1, 30], limit 2,
window 60, now 62 admits (one timestamp survives pruning); the admission
count of the interval (-1, 59] for the trace [0, 1, 2] with limit 2 is
bounded by 2. -/

theorem C4_rate_limiter_witness :
    (is_allowed [1, 30] 2 60 62).1 = true ∧
    countIn (admitted 2 60 [] [0, 1, 2]) (-1) 60 ≤ 2 := by
  constructor
  · exact ((C4_rate_limiter.1 [1, 30] 2 60 62 (by norm_num)).1).mpr
      (by norm_num [List.filter])
  · exact C4_rate_limiter.2 2 60 [0, 1, 2] (by norm_num) (-1)

/-! ## RateLimitMiddleware._check_rate_limits (app/api/middleware/rate_limit.py) -/

/-- The dict returned by RateLimitMiddleware._check_rate_limits. -/

theorem C5_dual_window (mh hh : List ℚ) (rpm rph : ℕ) (now : ℚ) :
    (check_rate_limits mh hh rpm rph now).1.allowed =
        ((is_allowed mh rpm 60 now).1 && (is_allowed hh rph 3600 now).1)
    ∧ ((is_allowed mh rpm 60 now).1 = false →
        (check_rate_limits mh hh rpm rph now).1.limit =
            (is_allowed mh rpm 60 now).2.1.limit
        ∧ (check_rate_limits mh hh rpm rph now).1.remaining =
            (is_allowed mh rpm 60 now).2.1.remaining
        ∧ (check_rate_limits mh hh rpm rph now).1.reset =
            (is_allowed mh rpm 60 now).2.1.reset
        ∧ (check_rate_limits mh hh rpm rph now).1.retry_after =
            (is_allowed mh rpm 60 now).2.1.retry_after
        ∧ (check_rate_limits mh hh rpm rph now).1.window = "minute")
    ∧ ((is_allowed mh rpm 60 now).1 = true →
        (is_allowed hh rph 3600 now).1 = false →
        (check_rate_limits mh hh rpm rph now).1.limit =
            (is_allowed hh rph 3600 now).2.1.limit
        ∧ (check_rate_limits mh hh rpm rph now).1.remaining =
            (is_allowed hh rph 3600 now).2.1.remaining
        ∧ (check_rate_limits mh hh rpm rph now).1.reset =
            (is_allowed hh rph 3600 now).2.1.reset
        ∧ (check_rate_limits mh hh rpm rph now).1.retry_after =
            (is_allowed hh rph 3600 now).2.1.retry_after
        ∧ (check_rate_limits mh hh rpm rph now).1.window = "hour") := by
  refine ⟨by simp [check_rate_limits], ?_, ?_⟩
  · intro hm
    simp [check_rate_limits, hm]
  · intro hm hh1
    simp [check_rate_limits, hm, hh1]

/-- Witness for C5 at concrete inputs: minute window denies (limit 1
already consumed), hour window allows, so the request is denied with the
minute metadata surfaced. -/

theorem C5_dual_window_witness :
    (check_rate_limits [30] [] 1 10 62).1.allowed = false ∧
    (check_rate_limits [30] [] 1 10 62).1.window = "minute" := by
  have hm : (is_allowed [30] 1 60 62).1 = false := by
    norm_num [is_allowed, List.dropWhile]
  constructor
  · rw [(C5_dual_window [30] [] 1 10 62).1, hm]
    simp
  · exact ((C5_dual_window [30] [] 1 10 62).2.1 hm).2.2.2.2

/-- Claim C10: the two windows are updated independently of the overall
verdict: each window that individually allows the request appends `now`
to its own pruned history, even when the other window denies and the
request is denied overall, so a denied request still consumes quota in the
non-denying window. -/

theorem C10_independent_window_updates (mh hh : List ℚ) (rpm rph : ℕ) (now : ℚ) :
    ((is_allowed mh rpm 60 now).1 = true →
      (check_rate_limits mh hh rpm rph now).2.1 =
        mh.dropWhile (fun t => decide (t ≤ now - 60)) ++ [now])
    ∧ ((is_allowed hh rph 3600 now).1 = true →
      (check_rate_limits mh hh rpm rph now).2.2 =
        hh.dropWhile (fun t => decide (t ≤ now - 3600)) ++ [now])
    ∧ ((check_rate_limits mh hh rpm rph now).1.allowed = false →
        (is_allowed mh rpm 60 now).1 = true →
        now ∈ (check_rate_limits mh hh rpm rph now).2.1)
    ∧ ((check_rate_limits mh hh rpm rph now).1.allowed = false →
        (is_allowed hh rph 3600 now).1 = true →
        now ∈ (check_rate_limits mh hh rpm rph now).2.2) := by
  have hm : (is_allowed mh rpm 60 now).1 = true →
      (check_rate_limits mh hh rpm rph now).2.1 =
        mh.dropWhile (fun t => decide (t ≤ now - 60)) ++ [now] := by
    intro h1
    have : (is_allowed mh rpm 60 now).2.2 =
        mh.dropWhile (fun t => decide (t ≤ now - 60)) ++ [now] := by
      have h2 : (mh.dropWhile (fun t => decide (t ≤ now - 60))).length < rpm := by
        simpa [is_allowed] using h1
      simp [is_allowed, h2]
    simpa [check_rate_limits] using this
  have hhr : (is_allowed hh rph 3600 now).1 = true →
      (check_rate_limits mh hh rpm rph now).2.2 =
        hh.dropWhile (fun t => decide (t ≤ now - 3600)) ++ [now] := by
    intro h1
    have : (is_allowed hh rph 3600 now).2.2 =
        hh.dropWhile (fun t => decide (t ≤ now - 3600)) ++ [now] := by
      have h2 : (hh.dropWhile (fun t => decide (t ≤ now - 3600))).length < rph := by
        simpa [is_allowed] using h1
      simp [is_allowed, h2]
    simpa [check_rate_limits] using this
  refine ⟨hm, hhr, ?_, ?_⟩
  · intro _ h1
    rw [hm h1]
    simp
  · intro _ h1
    rw [hhr h1]
    simp

/-- Witness for C10 at concrete inputs: the minute window (limit 1,
history [30]) denies at time 62, the hour window allows, and the denied
request still lands in the hour history. -/

theorem C10_independent_window_updates_witness :
    (check_rate_limits [30] [] 1 10 62).1.allowed = false ∧
    (62 : ℚ) ∈ (check_rate_limits [30] [] 1 10 62).2.2 := by
  have hh1 : (is_allowed ([] : List ℚ) 10 3600 62).1 = true := by
    norm_num [is_allowed, List.dropWhile]
  have hall : (check_rate_limits [30] [] 1 10 62).1.allowed = false := by
    norm_num [check_rate_limits, is_allowed, List.dropWhile]
  exact ⟨hall,
    (C10_independent_window_updates [30] [] 1 10 62).2.2.2 hall hh1⟩

/-! ## MemoryCacheService (app/services/cache/memory_cache.py) -/

/-- CacheEntry with TTL support, generic in the cached value (the service
stores SummaryResponse objects; none of the cache logic inspects them). -/

lemma lookup_eraseKey_self (k : String) :
    ∀ c : CacheDict α, lookup (eraseKey c k) k = none := by
  intro c
  induction c with
  | nil => rfl
  | cons p c ih =>
    by_cases hp : p.1 = k
    · simpa [eraseKey, hp] using ih
    · simpa [eraseKey, lookup, hp] using ih

lemma lookup_append_right (k : String) (c2 : CacheDict α) :
    ∀ c1 : CacheDict α, lookup c1 k = none →
    lookup (c1 ++ c2) k = lookup c2 k := by
  intro c1
  induction c1 with
  | nil => intro _; rfl
  | cons p c ih =>
    intro h
    by_cases hp : p.1 = k
    · simp [lookup, hp] at h
    · simp [lookup, hp] at h ⊢
      exact ih h

lemma containsKey_false_lookup {c : CacheDict α} {k : String}
    (h : containsKey c k = false) : lookup c k = none := by
  unfold containsKey at h
  cases hl : lookup c k
  · rfl
  · rw [hl] at h; simp at h

lemma lookup_map_assign (k : String) (e : CacheEntry α) :
    ∀ c : CacheDict α, containsKey c k = true →
    lookup (c.map (fun p => if p.1 = k then (k, e) else p)) k = some e := by
  intro c
  induction c with
  | nil => intro h; simp [containsKey, lookup] at h
  | cons p c ih =>
    intro h
    by_cases hp : p.1 = k
    · simp [hp, lookup]
    · have h' : containsKey c k = true := by
        simpa [containsKey, lookup, hp] using h
      simp [hp, lookup, ih h']

lemma lookup_dictAssign_self (k : String) (e : CacheEntry α) (c : CacheDict α) :
    lookup (dictAssign c k e) k = some e := by
  unfold dictAssign
  by_cases hc : containsKey c k
  · rw [if_pos hc]
    exact lookup_map_assign k e c hc
  · rw [if_neg hc]
    rw [lookup_append_right k _ c (containsKey_false_lookup (by simpa using hc))]
    simp [lookup]

lemma eraseKey_map_assign (k : String) (e : CacheEntry α) :
    ∀ c : CacheDict α,
    eraseKey (c.map (fun p => if p.1 = k then (k, e) else p)) k = eraseKey c k := by
  intro c
  induction c with
  | nil => rfl
  | cons p c ih =>
    by_cases hp : p.1 = k
    · simpa [eraseKey, hp] using ih
    · simpa [eraseKey, hp] using ih

lemma eraseKey_append (k : String) (c2 : CacheDict α) :
    ∀ c1 : CacheDict α, eraseKey (c1 ++ c2) k = eraseKey c1 k ++ eraseKey c2 k := by
  intro c1
  induction c1 with
  | nil => rfl
  | cons p c ih =>
    by_cases hp : p.1 = k
    · simpa [eraseKey, hp] using ih
    · simpa [eraseKey, hp] using ih

lemma eraseKey_dictAssign (k : String) (e : CacheEntry α) (c : CacheDict α) :
    eraseKey (dictAssign c k e) k = eraseKey c k := by
  unfold dictAssign
  by_cases hc : containsKey c k
  · rw [if_pos hc]
    exact eraseKey_map_assign k e c
  · rw [if_neg hc, eraseKey_append]
    simp [eraseKey]

/-- The dict produced by set_summary: the (possibly evicted) dict with the
key erased, then the fresh entry at the most-recently-used end. -/

lemma set_summary_cache (m : MemoryCacheService α) (k : String) (v : α)
    (ttl : Option ℤ) (now : ℚ) :
    (m.set_summary k v ttl now).cache =
      eraseKey (if !containsKey m.cache k && decide (m.max_size ≤ m.cache.length)
                then evict_lru m.cache else m.cache) k
        ++ [(k, CacheEntry.init v (ttl.getD m.default_ttl) now)] := by
  simp only [MemoryCacheService.set_summary, move_to_end, lookup_dictAssign_self,
    eraseKey_dictAssign]

/-- Claim C6: entries are created with expires_at = created_at + ttl;
get_summary on the key at any time at or before expires_at returns the
stored value, and at any time strictly after expires_at deletes the entry
and returns absent. -/

theorem C6_cache_ttl :
    (∀ (v : α) (tq : ℤ) (t : ℚ),
      (CacheEntry.init v tq t).expires_at = (CacheEntry.init v tq t).created_at + tq)
    ∧ (∀ (m : MemoryCacheService α) (k : String) (v : α) (ttl : Option ℤ)
        (now now' : ℚ),
        (now' ≤ now + (ttl.getD m.default_ttl) →
          ((m.set_summary k v ttl now).get_summary k now').1 = some v)
        ∧ (now + (ttl.getD m.default_ttl) < now' →
          ((m.set_summary k v ttl now).get_summary k now').1 = none
          ∧ containsKey ((m.set_summary k v ttl now).get_summary k now').2.cache k
              = false)) := by
  constructor
  · intro v tq t
    rfl
  · intro m k v ttl now now'
    have hlk : lookup (m.set_summary k v ttl now).cache k =
        some (CacheEntry.init v (ttl.getD m.default_ttl) now) := by
      rw [set_summary_cache,
        lookup_append_right k _ _ (lookup_eraseKey_self k _)]
      simp [lookup]
    constructor
    · intro hle
      have hexp : (CacheEntry.init v (ttl.getD m.default_ttl) now).is_expired now'
          = false := by
        simp [CacheEntry.is_expired, CacheEntry.init]
        exact hle
      have hval : ((m.set_summary k v ttl now).get_summary k now').1 =
          some (CacheEntry.init v (ttl.getD m.default_ttl) now).value := by
        simp [MemoryCacheService.get_summary, hlk, hexp]
      exact hval.trans rfl
    · intro hlt
      have hexp : (CacheEntry.init v (ttl.getD m.default_ttl) now).is_expired now'
          = true := by
        simp [CacheEntry.is_expired, CacheEntry.init]
        exact hlt
      refine ⟨by simp [MemoryCacheService.get_summary, hlk, hexp], ?_⟩
      have herase := lookup_eraseKey_self k (m.set_summary k v ttl now).cache
      simp [MemoryCacheService.get_summary, hlk, hexp, containsKey, herase]

/-- Witness for C6 at concrete inputs (spec Scenario B): set K with a 2
second TTL at time 0; get after 1 second returns the value, get after 3
seconds is absent. -/

theorem C6_cache_ttl_witness :
    (((⟨10, 3600, []⟩ : MemoryCacheService ℕ).set_summary "K" 7 (some 2) 0).get_summary
        "K" 1).1 = some 7 ∧
    (((⟨10, 3600, []⟩ : MemoryCacheService ℕ).set_summary "K" 7 (some 2) 0).get_summary
        "K" 3).1 = none := by
  constructor
  · exact (C6_cache_ttl.2 ⟨10, 3600, []⟩ "K" 7 (some 2) 0 1).1 (by norm_num)
  · exact ((C6_cache_ttl.2 ⟨10, 3600, []⟩ "K" 7 (some 2) 0 3).2 (by norm_num)).1

lemma length_eraseKey_le (k : String) :
    ∀ c : CacheDict α, (eraseKey c k).length ≤ c.length := by
  intro c
  induction c with
  | nil => simp [eraseKey]
  | cons p c ih =>
    by_cases hp : p.1 = k
    · simp only [eraseKey, if_pos hp, List.length_cons]
      omega
    · simp only [eraseKey, if_neg hp, List.length_cons]
      omega

lemma length_eraseKey_lt (k : String) :
    ∀ c : CacheDict α, containsKey c k = true →
    (eraseKey c k).length < c.length := by
  intro c
  induction c with
  | nil => intro h; simp [containsKey, lookup] at h
  | cons p c ih =>
    intro h
    by_cases hp : p.1 = k
    · simp only [eraseKey, if_pos hp, List.length_cons]
      have := length_eraseKey_le k c
      omega
    · have h' : containsKey c k = true := by
        simpa [containsKey, lookup, hp] using h
      simp only [eraseKey, if_neg hp, List.length_cons]
      have := ih h'
      omega

lemma eraseKey_of_not_contains {k : String} :
    ∀ {c : CacheDict α}, containsKey c k = false → eraseKey c k = c := by
  intro c
  induction c with
  | nil => intro _; rfl
  | cons p c ih =>
    intro h
    by_cases hp : p.1 = k
    · simp [containsKey, lookup, hp] at h
    · have h' : containsKey c k = false := by
        simpa [containsKey, lookup, hp] using h
      simp [eraseKey, hp, ih h']

lemma lookup_none_of_not_mem_keys {k : String} :
    ∀ {c : CacheDict α}, k ∉ c.map Prod.fst → lookup c k = none := by
  intro c
  induction c with
  | nil => intro _; rfl
  | cons p c ih =>
    intro h
    simp only [List.map_cons, List.mem_cons] at h
    push_neg at h
    rw [lookup, if_neg (fun he => h.1 he.symm)]
    exact ih h.2

lemma applyOp_invariant (m : MemoryCacheService α) (op : CacheOp α)
    (hmax : 1 ≤ m.max_size) (hlen : m.cache.length ≤ m.max_size) :
    (applyOp m op).max_size = m.max_size ∧
    (applyOp m op).default_ttl = m.default_ttl ∧
    (applyOp m op).cache.length ≤ m.max_size := by
  cases op with
  | get k now =>
    have happ : applyOp m (.get k now) = (m.get_summary k now).2 := rfl
    cases hl : lookup m.cache k with
    | none =>
      have h2 : (m.get_summary k now).2 = m := by
        simp [MemoryCacheService.get_summary, hl]
      rw [happ, h2]
      exact ⟨rfl, rfl, hlen⟩
    | some entry =>
      cases hexp : entry.is_expired now with
      | true =>
        have h2 : (m.get_summary k now).2 = { m with cache := eraseKey m.cache k } := by
          simp [MemoryCacheService.get_summary, hl, hexp]
        rw [happ, h2]
        exact ⟨rfl, rfl, le_trans (length_eraseKey_le k m.cache) hlen⟩
      | false =>
        have h2 : (m.get_summary k now).2 =
            { m with cache := eraseKey m.cache k ++
                [(k, { entry with
                    access_count := entry.access_count + 1
                    last_accessed := now })] } := by
          simp [MemoryCacheService.get_summary, hl, hexp]
        rw [happ, h2]
        refine ⟨rfl, rfl, ?_⟩
        have hck : containsKey m.cache k = true := by
          simp [containsKey, hl]
        have := length_eraseKey_lt k m.cache hck
        simp only [List.length_append, List.length_cons, List.length_nil]
        omega
  | set k v ttl now =>
    have happ : applyOp m (.set k v ttl now) = m.set_summary k v ttl now := rfl
    have hm : (m.set_summary k v ttl now).max_size = m.max_size := by
      simp [MemoryCacheService.set_summary]
    have ht : (m.set_summary k v ttl now).default_ttl = m.default_ttl := by
      simp [MemoryCacheService.set_summary]
    refine ⟨by rw [happ, hm], by rw [happ, ht], ?_⟩
    rw [happ, set_summary_cache, List.length_append]
    simp only [List.length_cons, List.length_nil]
    by_cases hck : containsKey m.cache k
    · rw [if_neg (by simp [hck])]
      have := length_eraseKey_lt k m.cache hck
      omega
    · by_cases hcap : m.max_size ≤ m.cache.length
      · rw [if_pos (by simp [hck, hcap])]
        have hlen2 : (evict_lru m.cache).length + 1 ≤ m.cache.length := by
          cases hc : m.cache with
          | nil =>
            rw [hc] at hcap
            simp at hcap
            omega
          | cons p rest =>
            have h1 : containsKey (p :: rest) p.1 = true := by
              simp [containsKey, lookup]
            have h2 := length_eraseKey_lt p.1 (p :: rest) h1
            show (eraseKey (p :: rest) p.1).length + 1 ≤ (p :: rest).length
            omega
        have h3 := length_eraseKey_le k (evict_lru m.cache)
        omega
      · rw [if_neg (by simp [hcap])]
        have := length_eraseKey_le k m.cache
        omega

lemma runOps_invariant :
    ∀ (ops : List (CacheOp α)) (m : MemoryCacheService α),
    1 ≤ m.max_size → m.cache.length ≤ m.max_size →
    (runOps m ops).max_size = m.max_size ∧
    (runOps m ops).cache.length ≤ m.max_size := by
  intro ops
  induction ops with
  | nil => intro m _ h; exact ⟨rfl, h⟩
  | cons op ops ih =>
    intro m hmax hlen
    have hstep := applyOp_invariant m op hmax hlen
    have hrec := ih (applyOp m op) (by omega) (by omega)
    rw [show runOps m (op :: ops) = runOps (applyOp m op) ops from rfl]
    omega

/-- Claim C7 as amended (capacity at least 1): starting empty, any
sequence of get/set operations keeps the store at no more than max_size
entries; a set of a new key at capacity evicts exactly the first (least
recently used) binding and appends the new one; a get on a live key moves
it to the most-recently-used end; a set always leaves its key at the
most-recently-used end. -/

theorem C7_lru_bounded :
    (∀ (C : ℕ) (ttl0 : ℤ) (ops : List (CacheOp α)), 1 ≤ C →
      (runOps (⟨C, ttl0, []⟩ : MemoryCacheService α) ops).cache.length ≤ C)
    ∧ (∀ (m : MemoryCacheService α) (k : String) (v : α) (ttl : Option ℤ) (now : ℚ),
        KeysNodup m.cache → containsKey m.cache k = false →
        m.cache.length = m.max_size → 1 ≤ m.max_size →
        (m.set_summary k v ttl now).cache =
          m.cache.tail ++ [(k, CacheEntry.init v (ttl.getD m.default_ttl) now)])
    ∧ (∀ (m : MemoryCacheService α) (k : String) (now : ℚ) (entry : CacheEntry α),
        lookup m.cache k = some entry → entry.is_expired now = false →
        (m.get_summary k now).2.cache =
          eraseKey m.cache k ++
            [(k, { entry with
                access_count := entry.access_count + 1
                last_accessed := now })])
    ∧ (∀ (m : MemoryCacheService α) (k : String) (v : α) (ttl : Option ℤ) (now : ℚ),
        (m.set_summary k v ttl now).cache.getLast? =
          some (k, CacheEntry.init v (ttl.getD m.default_ttl) now)) := by
  refine ⟨?_, ?_, ?_, ?_⟩
  · intro C ttl0 ops hC
    exact (runOps_invariant ops ⟨C, ttl0, []⟩ hC (by simp)).2
  · intro m k v ttl now hnd hck hfull hmax
    have hguard : (!containsKey m.cache k &&
        decide (m.max_size ≤ m.cache.length)) = true := by
      simp [hck, hfull.ge]
    rw [set_summary_cache, if_pos hguard]
    cases hc : m.cache with
    | nil =>
      rw [hc] at hfull
      simp at hfull
      exfalso
      omega
    | cons p rest =>
      have hnd' : p.1 ∉ rest.map Prod.fst := by
        rw [hc] at hnd
        have : (p.1 :: rest.map Prod.fst).Nodup := by
          simpa [KeysNodup] using hnd
        exact (List.nodup_cons.mp this).1
      have hev : evict_lru (p :: rest) = rest := by
        show eraseKey (p :: rest) p.1 = rest
        rw [eraseKey, if_pos rfl]
        exact eraseKey_of_not_contains
          (by simp [containsKey, lookup_none_of_not_mem_keys hnd'])
      have hrest : containsKey rest k = false := by
        rw [hc] at hck
        by_cases hp : p.1 = k
        · simp [containsKey, lookup, hp] at hck
        · simpa [containsKey, lookup, hp] using hck
      rw [hev, eraseKey_of_not_contains hrest]
      rfl
  · intro m k now entry hlk hexp
    simp [MemoryCacheService.get_summary, hlk, hexp]
  · intro m k v ttl now
    rw [set_summary_cache]
    exact List.getLast?_concat _

/-- Counterexample to claim C7 as stated: with capacity max_size = 0 a
set_summary still inserts (\_evict_lru is a no-op on the empty dict and
the code then stores the entry unconditionally), so the store holds
1 > 0 = max_size entries. -/

theorem C7_counterexample :
    0 < ((⟨0, 3600, []⟩ : MemoryCacheService Unit).set_summary
      "k" () none 0).cache.length := by
  rw [set_summary_cache]
  simp

/-- Witness for the amended C7 at concrete inputs: three sets into a
capacity 2 store stay within 2 entries, and a set of a new key at
capacity drops exactly the least-recently-used binding. -/

theorem C7_lru_bounded_witness :
    (runOps (⟨2, 3600, []⟩ : MemoryCacheService ℕ)
      [.set "a" 1 none 0, .set "b" 2 none 0, .set "c" 3 none 0]).cache.length ≤ 2 ∧
    ((⟨2, 3600, [("a", CacheEntry.init 1 5 0), ("b", CacheEntry.init 2 5 0)]⟩ :
        MemoryCacheService ℕ).set_summary "c" 3 none 1).cache =
      [("b", CacheEntry.init 2 5 0)] ++
        [("c", CacheEntry.init 3 ((none : Option ℤ).getD 3600) 1)] := by
  constructor
  · exact C7_lru_bounded.1 2 3600 _ (by norm_num)
  · exact C7_lru_bounded.2.1
      ⟨2, 3600, [("a", CacheEntry.init 1 5 0), ("b", CacheEntry.init 2 5 0)]⟩
      "c" 3 none 1 (by simp [KeysNodup]) (by rfl) rfl (by norm_num)

/-! ## SummaryRequest.get_cache_key (app/domain/entities/summary_request.py) -/

/-- LanguageCode enum (values are the wire strings). -/

theorem C8_cache_key_fields (hexdigest : String → String) (r1 r2 : SummaryRequest)
    (htext : r1.text = r2.text) (hlang : r1.lang = r2.lang)
    (hmax : r1.max_tokens = r2.max_tokens) (htone : r1.tone = r2.tone) :
    get_cache_key hexdigest r1 = get_cache_key hexdigest r2 := by
  unfold get_cache_key content_str
  rw [htext, hlang, hmax, htone]

/-- Witness for C8: two concrete requests differing only in user_id,
request_id and metadata share the cache key. -/

theorem C8_cache_key_fields_witness :
    get_cache_key (fun s => s)
      ⟨"hello world", .en, 100, .neutral, some "user-a", some "r1", [("k", "v")]⟩ =
    get_cache_key (fun s => s)
      ⟨"hello world", .en, 100, .neutral, some "user-b", none, []⟩ :=
  C8_cache_key_fields (fun s => s) _ _ rfl rfl rfl rfl

/-! ## TextRankSummarizer (app/services/fallback/textrank_summarizer.py) -/

/-- TextRankSummarizer._calculate_num_sentences. The request enters only
through request.max_tokens; len(sent_tokenize(request.text)) is the
total_sentences argument. -/

lemma sorted_lt_of_sorted_le_nodup {l : List ℕ}
    (h1 : List.Sorted (· ≤ ·) l) (h2 : l.Nodup) : List.Sorted (· < ·) l :=
  (h1.and h2).imp (fun h => lt_of_le_of_ne h.1 h.2)

lemma argsortDesc_nodup (scores : List ℚ) : (argsortDesc scores).Nodup := by
  unfold argsortDesc
  rw [List.nodup_reverse]
  exact ((List.perm_insertionSort (argKeyLe scores) _).symm).nodup
    (List.nodup_range _)

lemma argsortDesc_mem {scores : List ℚ} {i : ℕ} (h : i ∈ argsortDesc scores) :
    i < scores.length := by
  unfold argsortDesc at h
  rw [List.mem_reverse] at h
  exact List.mem_range.mp ((List.perm_insertionSort (argKeyLe scores) _).mem_iff.mp h)

lemma mem_argsortDesc {scores : List ℚ} {i : ℕ} (h : i < scores.length) :
    i ∈ argsortDesc scores := by
  unfold argsortDesc
  rw [List.mem_reverse]
  exact (List.perm_insertionSort (argKeyLe scores) _).mem_iff.mpr (List.mem_range.mpr h)

lemma argsortDesc_length (scores : List ℚ) :
    (argsortDesc scores).length = scores.length := by
  unfold argsortDesc
  rw [List.length_reverse, List.length_insertionSort, List.length_range]

lemma argsortDesc_sorted (scores : List ℚ) :
    List.Pairwise (fun a b => argKeyLe scores b a) (argsortDesc scores) := by
  unfold argsortDesc
  exact List.pairwise_reverse.mpr (List.sorted_insertionSort (argKeyLe scores) _)

lemma selected_indices_perm (scores : List ℚ) (num : ℕ) :
    (selected_indices scores num).Perm ((argsortDesc scores).take num) :=
  List.perm_insertionSort _ _

lemma selected_indices_nodup (scores : List ℚ) (num : ℕ) :
    (selected_indices scores num).Nodup :=
  ((selected_indices_perm scores num).symm).nodup
    ((List.take_sublist _ _).nodup (argsortDesc_nodup scores))

/-- Claim C9: the sentence budget equals
min(10, max(1, min(max_tokens / 20, total_sentences / 3))), and
extract_sentences returns the sentences at a strictly increasing list of
in-range indices (original discourse order) of the budgeted length, whose
scores dominate every unselected sentence's score; when the text has no
more sentences than the budget it is returned whole. -/

theorem C9_textrank :
    (∀ max_tokens total_sentences : ℕ,
      calculate_num_sentences max_tokens total_sentences =
        spec_sentence_budget max_tokens total_sentences)
    ∧ (∀ (sentences : List String) (scores : List ℚ) (num : ℕ),
        scores.length = sentences.length →
        (sentences.length ≤ num → extract_sentences sentences scores num = sentences)
        ∧ (num < sentences.length →
            extract_sentences sentences scores num =
              (selected_indices scores num).map (fun i => sentences.getD i "")
            ∧ List.Sorted (· < ·) (selected_indices scores num)
            ∧ (selected_indices scores num).length = num
            ∧ (∀ i ∈ selected_indices scores num, i < sentences.length)
            ∧ (∀ i ∈ selected_indices scores num, ∀ j < sentences.length,
                j ∉ selected_indices scores num →
                scores.getD j 0 ≤ scores.getD i 0))) := by
  constructor
  · intro max_tokens total_sentences
    simp only [calculate_num_sentences, spec_sentence_budget]
    omega
  · intro sentences scores num hlen
    constructor
    · intro hle
      simp [extract_sentences, hle]
    · intro hgt
      have hnle : ¬ sentences.length ≤ num := by omega
      refine ⟨by simp [extract_sentences, hnle], ?_, ?_, ?_, ?_⟩
      · exact sorted_lt_of_sorted_le_nodup
          (List.sorted_insertionSort _ _) (selected_indices_nodup scores num)
      · rw [(selected_indices_perm scores num).length_eq, List.length_take,
          argsortDesc_length, hlen]
        omega
      · intro i hi
        have hi2 : i ∈ (argsortDesc scores).take num :=
          (selected_indices_perm scores num).mem_iff.mp hi
        have : i ∈ argsortDesc scores := (List.take_sublist _ _).mem hi2
        rw [← hlen]
        exact argsortDesc_mem this
      · intro i hi j hj hjnot
        have hi2 : i ∈ (argsortDesc scores).take num :=
          (selected_indices_perm scores num).mem_iff.mp hi
        have hj2 : j ∉ (argsortDesc scores).take num := fun hc =>
          hjnot ((selected_indices_perm scores num).mem_iff.mpr hc)
        have hjmem : j ∈ argsortDesc scores := by
          rw [← hlen] at hj
          exact mem_argsortDesc hj
        have hjdrop : j ∈ (argsortDesc scores).drop num := by
          rcases List.mem_append.mp
            (by rw [List.take_append_drop num (argsortDesc scores)]; exact hjmem) with
            h | h
          · exact absurd h hj2
          · exact h
        have hpair := argsortDesc_sorted scores
        rw [← List.take_append_drop num (argsortDesc scores),
          List.pairwise_append] at hpair
        have hkey : argKeyLe scores j i := hpair.2.2 i hi2 j hjdrop
        rcases hkey with h | ⟨h, _⟩
        · exact le_of_lt h
        · exact le_of_eq h

/-- Witness for C9 at concrete inputs: four sentences with scores
3, 1, 2, 5 and a budget of 2 select indices 3 and 0 and return them in
original order; the budget formula at max_tokens 100, 30 sentences is 5. -/

theorem C9_textrank_witness :
    extract_sentences ["a", "b", "c", "d"] [3, 1, 2, 5] 2 = ["a", "d"] ∧
    calculate_num_sentences 100 30 = 5 := by
  constructor
  · have h := ((C9_textrank.2 ["a", "b", "c", "d"] [3, 1, 2, 5] 2 rfl).2
      (by norm_num)).1
    rw [h]
    rfl
  · exact (C9_textrank.1 100 30).trans rfl

/-! ## SummaryService.generate_summary and the fallback chain
(app/services/summary_service.py, app/services/fallback/) -/

/-- SummarySource enum (app/domain/entities/summary_response.py). -/

lemma generate_error_is_fallback (s : FallbackSvc) (req : SummaryRequest)
    {e : PyExc} (h : s.generate_summary req = .error e) :
    isinstance_FallbackError e = true := by
  unfold FallbackSvc.generate_summary at h
  cases hr : s.run_of req with
  | ok t => rw [hr] at h; simp at h
  | error msg =>
    rw [hr] at h
    simp at h
    rw [← h]
    rfl

lemma generate_ok_source (s : FallbackSvc) (req : SummaryRequest)
    {r : SummaryResponse} (h : s.generate_summary req = .ok r) :
    r.source = s.fallback_source := by
  unfold FallbackSvc.generate_summary at h
  cases hr : s.run_of req with
  | ok t =>
    rw [hr] at h
    simp at h
    rw [← h]
  | error msg => rw [hr] at h; simp at h

lemma loop_find_some (req : SummaryRequest) :
    ∀ (services : List FallbackSvc) (acc : Option PyExc) (s : FallbackSvc),
    services.find? (fallback_succeeds req) = some s →
    ∃ r, s.generate_summary req = .ok r ∧
      try_fallback_generation_loop req services acc = .ok r := by
  intro services
  induction services with
  | nil => intro acc s h; simp at h
  | cons s0 rest ih =>
    intro acc s h
    by_cases hsup : s0.supports_language req.lang = false
    · have hp : fallback_succeeds req s0 = false := by
        simp [fallback_succeeds, hsup]
      rw [List.find?_cons_of_neg _ (by simp [hp])] at h
      obtain ⟨r, h1, h2⟩ := ih acc s h
      exact ⟨r, h1, by rwa [try_fallback_generation_loop, if_pos hsup]⟩
    · cases hgen : s0.generate_summary req with
      | ok r0 =>
        have hp : fallback_succeeds req s0 = true := by
          simp [fallback_succeeds, hgen]
          exact eq_true_of_ne_false hsup
        rw [List.find?_cons_of_pos _ hp] at h
        injection h with h
        refine ⟨r0, by rw [← h]; exact hgen, ?_⟩
        rw [try_fallback_generation_loop, if_neg hsup, hgen]
      | error e0 =>
        have hp : fallback_succeeds req s0 = false := by
          simp [fallback_succeeds, hgen]
        rw [List.find?_cons_of_neg _ (by simp [hp])] at h
        obtain ⟨r, h1, h2⟩ := ih (some e0) s h
        refine ⟨r, h1, ?_⟩
        simpa [try_fallback_generation_loop, hsup, hgen,
          generate_error_is_fallback s0 req hgen] using h2

lemma loop_find_none (req : SummaryRequest) :
    ∀ (services : List FallbackSvc) (acc : Option PyExc),
    services.find? (fallback_succeeds req) = none →
    try_fallback_generation_loop req services acc =
      .error (.fallbackError ("All fallback services failed. Last error: " ++
        strOfLastError (last_eligible_error req services acc))) := by
  intro services
  induction services with
  | nil => intro acc _; rfl
  | cons s0 rest ih =>
    intro acc h
    have hp : fallback_succeeds req s0 = false := by
      by_cases hp : fallback_succeeds req s0
      · rw [List.find?_cons_of_pos _ hp] at h; simp at h
      · exact eq_false_of_ne_true hp
    have hrest : rest.find? (fallback_succeeds req) = none := by
      rwa [List.find?_cons_of_neg _ (by simp [hp])] at h
    by_cases hsup : s0.supports_language req.lang = false
    · rw [try_fallback_generation_loop, if_pos hsup,
        show last_eligible_error req (s0 :: rest) acc =
          last_eligible_error req rest acc by
            rw [last_eligible_error, if_pos hsup]]
      exact ih acc hrest
    · cases hgen : s0.generate_summary req with
      | ok r0 =>
        exfalso
        simp [fallback_succeeds, hgen] at hp
        exact hsup hp
      | error e0 =>
        have hfb := generate_error_is_fallback s0 req hgen
        rw [show last_eligible_error req (s0 :: rest) acc =
            last_eligible_error req rest (some e0) by
              rw [last_eligible_error, if_neg hsup, hgen]]
        simpa [try_fallback_generation_loop, hsup, hgen, hfb]
          using ih (some e0) hrest

lemma loop_error_fallback (req : SummaryRequest) :
    ∀ (services : List FallbackSvc) (acc : Option PyExc) (e' : PyExc),
    try_fallback_generation_loop req services acc = .error e' →
    isinstance_FallbackError e' = true := by
  intro services
  induction services with
  | nil =>
    intro acc e' h
    simp [try_fallback_generation_loop] at h
    rw [← h]
    rfl
  | cons s0 rest ih =>
    intro acc e' h
    by_cases hsup : s0.supports_language req.lang = false
    · rw [try_fallback_generation_loop, if_pos hsup] at h
      exact ih acc e' h
    · cases hgen : s0.generate_summary req with
      | ok r0 =>
        simp [try_fallback_generation_loop, hsup, hgen] at h
      | error e0 =>
        have hfb := generate_error_is_fallback s0 req hgen
        simp [try_fallback_generation_loop, hsup, hgen, hfb] at h
        exact ih (some e0) e' h

/-- Claim C1: when the guarded provider call raises an error matched by
the except clause (every breaker-open or qualifying provider error),
generate_summary returns exactly what the fallback chain produces: the
ordered services are tried, the language-rejecting ones skipped, the first
successful one gets its response returned tagged with its fallback source;
when no service succeeds the aggregate FallbackError referencing the last
underlying error is raised; and in every case the caller sees either a
response or a FallbackError, never the provider error. -/

theorem C1_provider_failure_fallback
    (services : List FallbackSvc) (cb : CircuitBreaker) (now : ℚ)
    (outcome : Except PyExc SummaryResponse) (req : SummaryRequest) (e : PyExc)
    (herr : (guardedCall cb now outcome).result = .error e)
    (hcaught : (isinstance_LLMProviderError e || isinstance_LLMProviderTimeoutError e
        || isinstance_LLMProviderUnavailableError e) = true) :
    (generate_summary services cb now none outcome req).1 =
        try_fallback_generation services req
    ∧ (∀ s, services.find? (fallback_succeeds req) = some s →
        ∃ r, s.generate_summary req = .ok r ∧
          (generate_summary services cb now none outcome req).1 = .ok r ∧
          (r.source = .fallback_textrank ∨ r.source = .fallback_tfidf))
    ∧ (services.find? (fallback_succeeds req) = none →
        (generate_summary services cb now none outcome req).1 =
          .error (.fallbackError ("All fallback services failed. Last error: " ++
            strOfLastError (last_eligible_error req services none))))
    ∧ (∀ e', (generate_summary services cb now none outcome req).1 = .error e' →
        isinstance_FallbackError e' = true) := by
  have hmain : (generate_summary services cb now none outcome req).1 =
      try_fallback_generation services req := by
    simp [generate_summary, herr, hcaught]
  refine ⟨hmain, ?_, ?_, ?_⟩
  · intro s hfind
    obtain ⟨r, h1, h2⟩ := loop_find_some req services none s hfind
    refine ⟨r, h1, by rw [hmain]; exact h2, ?_⟩
    have hsrc := generate_ok_source s req h1
    cases s with
    | textrank run => rw [hsrc]; exact .inl rfl
    | tfidf run => rw [hsrc]; exact .inr rfl
  · intro hfind
    rw [hmain]
    exact loop_find_none req services none hfind
  · intro e' he'
    rw [hmain] at he'
    exact loop_error_fallback req services none e' he'

/-- Witness for C1 at concrete inputs: the provider raises a quota error,
the request language is Russian so TextRank is skipped, TF-IDF succeeds,
and the caller receives the TF-IDF response tagged fallback_tfidf. -/

theorem C1_provider_failure_fallback_witness :
    (generate_summary
        [.textrank (fun _ => .error "sim failure"),
         .tfidf (fun _ => .ok "good summary")]
        serviceBreaker 0 none (.error (.llmProviderQuotaError "quota exceeded"))
        ⟨"hello world sample text", .ru, 100, .neutral, none, some "r1", []⟩).1 =
      .ok { summary := "good summary"
            usage := { prompt_tokens := 5, completion_tokens := 3 }
            model := "tfidf"
            source := .fallback_tfidf
            request_id := some "r1"
            cache_hit := false } := by
  have h := C1_provider_failure_fallback
    [.textrank (fun _ => .error "sim failure"),
     .tfidf (fun _ => .ok "good summary")]
    serviceBreaker 0 (.error (.llmProviderQuotaError "quota exceeded"))
    ⟨"hello world sample text", .ru, 100, .neutral, none, some "r1", []⟩
    (.llmProviderQuotaError "quota exceeded") rfl rfl
  exact h.1.trans rfl

end App
